import Mathlib

/-!
Verification of the twm window manager core (window/desktop tracking,
directional adjacency, action dispatch) against its specification.

The C++ sources are shallowly embedded: `float` coordinates are modelled as
exact rationals (all geometry in the claims is affine arithmetic on small
dyadic values, where IEEE floats compute exactly), `clock::time_point` as a
monotone `Nat` counter (the epoch default-constructed value is `0`),
`HWND` window handles and desktop GUIDs as `Nat` tokens, and the
`unordered_map` containers as association lists whose iteration order is a
parameter (the C++ iteration order is unspecified).
-/

namespace Twm

/-! ### Geometry primitives (src/include/twm/math.h)

`Vec2` carries two float coordinates; `operator[]` selects by index
(`idx == 0 ? x : y`, asserted in range). `Rect` stores `top_left` and
`bottom_right`. -/

structure Vec2 where
  x : ℚ
  y : ℚ
deriving DecidableEq

def Vec2.get (v : Vec2) (idx : Nat) : ℚ :=
  if idx = 0 then v.x else v.y

def Vec2.add (a b : Vec2) : Vec2 := ⟨a.x + b.x, a.y + b.y⟩

def Vec2.sub (a b : Vec2) : Vec2 := ⟨a.x - b.x, a.y - b.y⟩

def Vec2.divs (a : Vec2) (c : ℚ) : Vec2 := ⟨a.x / c, a.y / c⟩

structure Rect where
  top_left : Vec2
  bottom_right : Vec2
deriving DecidableEq

def Rect.center (r : Rect) : Vec2 := (r.top_left.add r.bottom_right).divs 2

def Rect.size (r : Rect) : Vec2 := r.bottom_right.sub r.top_left

/-- `Rect::distance_with_axis_preference` from math.h:
`abs(c[axis] - oc[axis]) + fmax(0.0f, abs(c[off_axis] - oc[off_axis]) - size()[off_axis] / 2)`. -/
def Rect.distance_with_axis_preference (r : Rect) (axis : Nat) (other : Rect) : ℚ :=
  let off_axis := (axis + 1) % 2
  let c := r.center
  let oc := other.center
  |c.get axis - oc.get axis| + max 0 (|c.get off_axis - oc.get off_axis| - (r.size.get off_axis) / 2)

/-- The distance formula as worded by the spec, with an explicit off-axis
penalty weight `k` (the spec calls `k` configurable with default `10`).
Used to compare the spec's claim against the code's formula. -/
def spec_distance_weighted (k : ℚ) (r : Rect) (axis : Nat) (other : Rect) : ℚ :=
  let off := (axis + 1) % 2
  |r.center.get axis - other.center.get axis| +
    k * max 0 (|r.center.get off - other.center.get off| - (r.size.get off) / 2)

/-! ### Windows and directional adjacency (src/unnamed/part_005, class Window
and Desktop::get_adjacent_window)

`Window` carries the fields of the C++ class that the algorithms read
(`m_name`, `m_rect`, `m_handle`, `m_last_interacted_time`,
`m_marked_for_deletion`).  The unused BSP placeholder and the desktop's
redundant `m_id` copy of its map key are omitted. -/

inductive Direction where
  | Up
  | Down
  | Left
  | Right
deriving DecidableEq

structure Window where
  name : String
  rect : Rect
  handle : Nat
  last_interacted_time : Nat
  marked_for_deletion : Bool
deriving DecidableEq

/-- `size_t axis = dir == Direction::Left || dir == Direction::Right ? 0 : 1;` -/
def axis_of (dir : Direction) : Nat :=
  if dir = Direction.Left ∨ dir = Direction.Right then 0 else 1

/-- The side filter inside `Desktop::get_adjacent_window`:
`is_on_correct_side = abs(in_axis_dist) > closeness_tolerance && (in_axis_dist > 0) == (dir == Up || dir == Left)`
with `in_axis_dist = center - ow.rect().center()[axis]` and `closeness_tolerance = 2`. -/
def is_on_correct_side (dir : Direction) (center ow_center : ℚ) : Prop :=
  |center - ow_center| > 2 ∧ ((center - ow_center > 0) ↔ (dir = Direction.Up ∨ dir = Direction.Left))

instance (dir : Direction) (center ow_center : ℚ) : Decidable (is_on_correct_side dir center ow_center) :=
  inferInstanceAs (Decidable (_ ∧ _))

/-- The combination `w != &ow && is_on_correct_side` of the loop's guard;
address inequality of entries of one `unordered_map` keyed by handle is
key inequality. -/
def eligible_candidate (w ow : Window) (dir : Direction) : Prop :=
  w.handle ≠ ow.handle ∧
    is_on_correct_side dir (w.rect.center.get (axis_of dir)) (ow.rect.center.get (axis_of dir))

instance (w ow : Window) (dir : Direction) : Decidable (eligible_candidate w ow dir) :=
  inferInstanceAs (Decidable (_ ∧ _))

/-- `dist < best_distance - closeness_tolerance`; `best_distance` starts at
`numeric_limits<float>::infinity()`, modelled as `none` (any finite float is
below `∞ - 2`). -/
def lt_best (dist : ℚ) : Option ℚ → Prop
  | none => True
  | some b => dist < b - 2

instance (dist : ℚ) : (best : Option ℚ) → Decidable (lt_best dist best)
  | none => .isTrue True.intro
  | some b => inferInstanceAs (Decidable (dist < b - 2))

/-- `abs(dist - best_distance) < closeness_tolerance`; false while
`best_distance` is the initial infinity. -/
def within_tolerance_of_best (dist : ℚ) : Option ℚ → Prop
  | none => False
  | some b => |dist - b| < 2

instance (dist : ℚ) : (best : Option ℚ) → Decidable (within_tolerance_of_best dist best)
  | none => .isFalse id
  | some b => inferInstanceAs (Decidable (|dist - b| < 2))

/-- Running state of the scan in `Desktop::get_adjacent_window`:
`best_candidate` (initially `nullptr`), `best_distance` (initially `inf`),
`most_recently_interacted` (initially the epoch). -/
structure AdjSearch where
  best_candidate : Option Window
  best_distance : Option ℚ
  most_recently_interacted : Nat

/-- One iteration of the loop body of `Desktop::get_adjacent_window`. -/
def adj_step (w : Window) (dir : Direction) (st : AdjSearch) (ow : Window) : AdjSearch :=
  let dist := w.rect.distance_with_axis_preference (axis_of dir) ow.rect
  if eligible_candidate w ow dir ∧
      (lt_best dist st.best_distance ∨
        (within_tolerance_of_best dist st.best_distance ∧
          ow.last_interacted_time > st.most_recently_interacted)) then
    { best_candidate := some ow, best_distance := some dist,
      most_recently_interacted := ow.last_interacted_time }
  else
    st

/-- `Desktop::get_adjacent_window(handle, dir)`, with the desktop's
`m_windows` map given as the list `windows` in iteration order. -/
def get_adjacent_window (windows : List Window) (handle : Nat) (dir : Direction) :
    Option Window :=
  match windows.find? (fun w => w.handle == handle) with
  | none => none
  | some w => (windows.foldl (adj_step w dir) ⟨none, none, 0⟩).best_candidate

/-- Concrete source window for witnesses: handle 1, centered at `(10, 10)`. -/
def w3s : Window := ⟨"s", ⟨⟨0, 0⟩, ⟨20, 20⟩⟩, 1, 0, false⟩

/-- Concrete candidate window for witnesses: handle 2, centered at `(1, 1)`. -/
def w3c : Window := ⟨"c", ⟨⟨0, 0⟩, ⟨2, 2⟩⟩, 2, 0, false⟩

/-- Source window for the C2 witness: handle 1, centered at `(100, 0)`. -/
def w2s : Window := ⟨"s", ⟨⟨90, -10⟩, ⟨110, 10⟩⟩, 1, 0, false⟩

/-- Candidate for the C2 witness: handle 2, centered at `(50, 0)`, interacted
with at time 5. -/
def w2a : Window := ⟨"a", ⟨⟨40, -10⟩, ⟨60, 10⟩⟩, 2, 5, false⟩

/-- Candidate for the C2 witness: handle 3, centered at `(51, 0)` (distance to
the source within tolerance of the other candidate's), never interacted with. -/
def w2b : Window := ⟨"b", ⟨⟨41, -10⟩, ⟨61, 10⟩⟩, 3, 0, false⟩

/-! ### Desktop registry (src/unnamed/part_005, class Desktop)

`PlatformWindow` bundles the platform's answers for one `HWND` during one
enumeration pass: `get_window_desktop_id`, `get_window_text`,
`get_window_frame_bounds`, `IsIconic`, `IsWindowVisible` and
`is_window_on_current_desktop`.  `Desktop::update_all` receives the
`EnumWindows` listing, the `GetForegroundWindow()` handle and the clock
reading as explicit inputs. -/

structure PlatformWindow where
  handle : Nat
  desktop_id : Option Nat
  name : String
  rect : Rect
  iconic : Bool
  visible : Bool
  on_current_desktop : Bool
deriving DecidableEq

/-- `Desktop::can_be_managed`: non-empty title, not `IsIconic`, `IsWindowVisible`. -/
def can_be_managed (pw : PlatformWindow) : Bool :=
  pw.name != "" && !pw.iconic && pw.visible

/-- `class Desktop`: the handle-keyed window map (in iteration order) and
`m_last_focus` (`none` models the null handle).  The never-populated BSP root
and the `m_id` copy of the registry key are omitted. -/
structure Desktop where
  windows : List Window
  last_focus : Option Nat
deriving DecidableEq

/-- The process-wide state: `Desktop::all()` (GUID-keyed, in iteration order)
and `Desktop::current_id()`. -/
structure Registry where
  desktops : List (Nat × Desktop)
  current_id : Option Nat
deriving DecidableEq

/-- `Desktop::pre_update`: mark every tracked window for deletion. -/
def Desktop.pre_update (d : Desktop) : Desktop :=
  { d with windows := d.windows.map (fun w => { w with marked_for_deletion := true }) }

/-- `Desktop::post_update`: erase still-marked windows, then clear
`m_last_focus` when it no longer keys a window (`m_windows.count(m_last_focus) == 0`). -/
def Desktop.post_update (d : Desktop) : Desktop :=
  ⟨d.windows.filter (fun w => !w.marked_for_deletion),
    if (d.windows.filter (fun w => !w.marked_for_deletion)).any
        (fun w => some w.handle == d.last_focus) then
      d.last_focus
    else none⟩

/-- `m_windows.insert({handle, w})` followed by `it->second.update(w)` when the
key was present: inserting appends a fresh `Window` (epoch interaction time,
unmarked); updating overwrites the name and rect and clears the deletion
mark. -/
def upsert_window (ws : List Window) (pw : PlatformWindow) : List Window :=
  if ws.any (fun ow => ow.handle == pw.handle) then
    ws.map (fun ow =>
      if ow.handle == pw.handle then
        { ow with name := pw.name, rect := pw.rect, marked_for_deletion := false }
      else ow)
  else ws ++ [⟨pw.name, pw.rect, pw.handle, 0, false⟩]

/-- `it->second.update_last_interacted_time()` on the entry keyed `hh`. -/
def touch_window (ws : List Window) (hh : Nat) (now : Nat) : List Window :=
  ws.map (fun ow => if ow.handle == hh then { ow with last_interacted_time := now } else ow)

/-- `Desktop::try_manage(handle, is_focused)`: construct the window from the
platform's answers, refuse unmanageable windows, insert or update the map
entry, and on focus refresh the entry's interaction time and the desktop's
`m_last_focus`. -/
def Desktop.try_manage (d : Desktop) (pw : PlatformWindow) (is_focused : Bool) (now : Nat) :
    Desktop × Bool :=
  if !can_be_managed pw then (d, false)
  else
    let ws := upsert_window d.windows pw
    let ws2 := if is_focused then touch_window ws pw.handle now else ws
    (⟨ws2, if is_focused then some pw.handle else d.last_focus⟩, true)

/-- `all().insert({desktop_id, Desktop{desktop_id}})`: the GUID's entry is
created (at the end of the iteration order) when absent. -/
def ensure_desktop (ds : List (Nat × Desktop)) (gid : Nat) : List (Nat × Desktop) :=
  if ds.any (fun gd => gd.1 == gid) then ds else ds ++ [(gid, ⟨[], none⟩)]

/-- Reading the GUID's entry (`insert_result.first->second`); callers only use
it on lists that contain the key, so the default is irrelevant. -/
def lookup_desktop (ds : List (Nat × Desktop)) (gid : Nat) : Desktop :=
  ((ds.find? (fun gd => gd.1 == gid)).map Prod.snd).getD ⟨[], none⟩

/-- Writing the GUID's entry back (the C++ mutates the map entry in place). -/
def store_desktop (ds : List (Nat × Desktop)) (gid : Nat) (d : Desktop) :
    List (Nat × Desktop) :=
  ds.map (fun gd => if gd.1 == gid then (gd.1, d) else gd)

/-- One `EnumWindows` callback invocation inside `Desktop::update_all`: skip
windows without a desktop GUID, resolve or create the GUID's desktop, try to
manage the window, and (only when managed) record the first window sitting on
the OS's current desktop as the current-desktop candidate. -/
def enum_step (focused : Option Nat) (now : Nat) (reg : Registry) (pw : PlatformWindow) :
    Registry :=
  match pw.desktop_id with
  | none => reg
  | some gid =>
    let ds := ensure_desktop reg.desktops gid
    let md := (lookup_desktop ds gid).try_manage pw (focused == some pw.handle) now
    if md.2 then
      { desktops := store_desktop ds gid md.1,
        current_id :=
          if reg.current_id = none ∧ pw.on_current_desktop then some gid else reg.current_id }
    else
      { desktops := ds, current_id := reg.current_id }

/-- `Desktop::update_all()`: reset the current-desktop GUID, mark every window
of every desktop, fold the enumeration through `enum_step`, post-update every
desktop and drop the desktops left without windows. -/
def update_all (reg : Registry) (enum : List PlatformWindow) (focused : Option Nat) (now : Nat) :
    Registry :=
  let marked : Registry :=
    { desktops := reg.desktops.map (fun gd => (gd.1, gd.2.pre_update)), current_id := none }
  let swept := enum.foldl (enum_step focused now) marked
  { desktops :=
      (swept.desktops.map (fun gd => (gd.1, gd.2.post_update))).filter
        (fun gd => !gd.2.windows.isEmpty),
    current_id := swept.current_id }

/-- A handle is tracked when some desktop's window map contains it. -/
def Registry.tracked (reg : Registry) (h : Nat) : Bool :=
  reg.desktops.any (fun gd => gd.2.windows.any (fun w => w.handle == h))

/-- Desktop GUID `g` is present in the registry. -/
def Registry.hasDesk (reg : Registry) (g : Nat) : Prop :=
  ∃ d, (g, d) ∈ reg.desktops

/-- Desktop `g` tracks window `h` with bounds `r`. -/
def Registry.hasWinRect (reg : Registry) (g h : Nat) (r : Rect) : Prop :=
  ∃ d, (g, d) ∈ reg.desktops ∧ ∃ w ∈ d.windows, w.handle = h ∧ w.rect = r

/-- Invariant carried through the enumeration fold: every tracked window is
either still marked for deletion or was (re-)managed by an already-processed
enumeration entry of its desktop. -/
def SoundInv (P : List PlatformWindow) (ds : List (Nat × Desktop)) : Prop :=
  ∀ gd ∈ ds, ∀ w ∈ gd.2.windows,
    w.marked_for_deletion = true ∨
      ∃ pw ∈ P, pw.handle = w.handle ∧ pw.desktop_id = some gd.1 ∧
        can_be_managed pw = true ∧ pw.rect = w.rect

/-- Invariant carried through the enumeration fold for completeness: the first
desktop entry keyed `g` holds an unmarked window with the given handle and
bounds. -/
def HasFreshWin (ds : List (Nat × Desktop)) (g h : Nat) (r : Rect) : Prop :=
  ∃ gd, ds.find? (fun x => x.1 == g) = some gd ∧
    ∃ w ∈ gd.2.windows, w.handle = h ∧ w.rect = r ∧ w.marked_for_deletion = false

/-- Concrete tracked window with handle 5. -/
def wC4 : Window := ⟨"w", ⟨⟨0, 0⟩, ⟨1, 1⟩⟩, 5, 0, false⟩

/-- Concrete one-window registry: desktop 1 tracking the window with handle 5. -/
def regC4 : Registry := ⟨[(1, ⟨[wC4], none⟩)], none⟩

/-- Concrete manageable enumeration entry: handle 7 on desktop 1. -/
def pwC5 : PlatformWindow := ⟨7, some 1, "x", ⟨⟨0, 0⟩, ⟨1, 1⟩⟩, false, true, false⟩

/-- The desktop produced by managing `pwC5` on an otherwise empty desktop. -/
def dC10 : Desktop := ⟨[⟨"x", ⟨⟨0, 0⟩, ⟨1, 1⟩⟩, 7, 0, false⟩], none⟩

/-! ### Swapping bounds (src/unnamed/part_005, `Window::swap_adjacent` and
`Window::set_rect`)

`Window::set_rect` calls the platform bounds setter and updates the cached
rect only on success; `swap_adjacent` refreshes both windows' interaction
times, then re-applies the adjacent window's bounds to the focused window and
the focused window's saved bounds (`tmp`) to the adjacent window, and reports
success only when both setter calls succeeded (`success &= ...` twice, both
calls always made).  The two platform outcomes are the oracles `ok1`
(focused window's setter) and `ok2` (adjacent window's). -/
def swap_map_fn (A B : Window) (ok1 ok2 : Bool) (now : Nat) (w : Window) : Window :=
  if w.handle == A.handle then
    if ok1 then { w with last_interacted_time := now, rect := B.rect }
    else { w with last_interacted_time := now }
  else if w.handle == B.handle then
    if ok2 then { w with last_interacted_time := now, rect := A.rect }
    else { w with last_interacted_time := now }
  else w

/-- `Window::swap_adjacent(dir)` on one desktop's window map, with the focused
handle `fh`: per entry, the focused window gets its interaction time refreshed
and (on `ok1`) the adjacent window's pre-swap bounds; the adjacent window gets
its time refreshed and (on `ok2`) the focused window's pre-swap bounds
(`tmp`). -/
def swap_adjacent (ws : List Window) (fh : Nat) (dir : Direction) (ok1 ok2 : Bool)
    (now : Nat) : List Window × Bool :=
  match ws.find? (fun w => w.handle == fh) with
  | none => (ws, false)
  | some A =>
    match get_adjacent_window ws fh dir with
    | none => (ws, false)
    | some B => (ws.map (swap_map_fn A B ok1 ok2 now), ok1 && ok2)

/-! ### Action dispatch (src/unnamed/part_005, `invoke_action`, and the string
helpers `split`/`to_lower` from common.cpp with `to_direction` from the
common translation unit)

The state-changing leaves (`Window::focus_adjacent_or_default`,
`Window::swap_adjacent`, `Window::move_to_adjacent_desktop`, close, terminate,
config reload, and the desktop-switch keystroke inside
`Desktop::focus_adjacent`) act on the process state `σ` through an abstract
effects record; each may itself end in an error.  The direction guard of
`Desktop::focus_adjacent` lives in the dispatched code and is embedded
inline.  A result `(s, some msg)` models a thrown `runtime_error{msg}` with
the state as of the throw. -/

/-- `split(text, delim)`: every occurrence of a delimiter character ends the
current token (tokens may be empty, as with `find_first_of`). -/
def split (text delim : List Char) : List (List Char) :=
  match text with
  | [] => [[]]
  | c :: rest =>
    if c ∈ delim then [] :: split rest delim
    else
      match split rest delim with
      | [] => [[c]]
      | t :: ts => (c :: t) :: ts

/-- `to_lower` applied to a token (ASCII `tolower` per character). -/
def to_lower (s : List Char) : List Char := s.map Char.toLower

inductive Action where
  | Focus
  | Swap
  | MoveToDesktop
  | Close
  | Terminate
  | Reload
deriving DecidableEq

/-- `to_action`: keyword lookup after lowering; `none` models the thrown
`Invalid action` error. -/
def to_action (s : List Char) : Option Action :=
  let lstr := to_lower s
  if lstr = "focus".toList then some Action.Focus
  else if lstr = "swap".toList then some Action.Swap
  else if lstr = "move_to_desktop".toList then some Action.MoveToDesktop
  else if lstr = "close".toList then some Action.Close
  else if lstr = "terminate".toList then some Action.Terminate
  else if lstr = "reload".toList then some Action.Reload
  else none

inductive Target where
  | Window
  | Desktop
deriving DecidableEq

/-- `to_target`: keyword lookup after lowering; `none` models the thrown
`Invalid target` error. -/
def to_target (s : List Char) : Option Target :=
  let lstr := to_lower s
  if lstr = "window".toList then some Target.Window
  else if lstr = "desktop".toList then some Target.Desktop
  else none

/-- `to_direction`: keyword lookup after lowering; `none` models the thrown
`to_direction: invalid dir` error. -/
def to_direction (s : List Char) : Option Direction :=
  let lstr := to_lower s
  if lstr = "up".toList then some Direction.Up
  else if lstr = "down".toList then some Direction.Down
  else if lstr = "left".toList then some Direction.Left
  else if lstr = "right".toList then some Direction.Right
  else none

/-- The state-changing operations `invoke_action` delegates to, abstracted
over the process state `σ` (registry, OS focus, configuration). -/
structure Effects (σ : Type) where
  focus_window : Direction → σ → σ × Option String
  swap_window : Direction → σ → σ × Option String
  move_window : Direction → σ → σ × Option String
  close_focused : σ → σ × Option String
  terminate_focused : σ → σ × Option String
  reload_config : σ → σ × Option String
  switch_desktop : Direction → σ → σ × Option String

/-- `invoke_action(action)`: split on spaces, parse the action keyword, check
the arity, parse target and direction (in the C++ evaluation order: target
before direction, both before the target switch), then run the resolved
operation.  `(s, some msg)` models a thrown `runtime_error{msg}`. -/
def invoke_action {σ : Type} (eff : Effects σ) (action : String) (s : σ) :
    σ × Option String :=
  match split action.toList [' '] with
  | [] =>
    (s, some "Invalid action. Must be of the form <focus|swap|move_to_desktop|close|terminate|reload>")
  | p0 :: rest =>
    match to_action p0 with
    | none => (s, some ("Invalid action: " ++ String.mk p0))
    | some Action.Focus =>
      match rest with
      | [p1, p2] =>
        match to_target p1 with
        | none => (s, some ("Invalid target: " ++ String.mk p1))
        | some tgt =>
          match to_direction p2 with
          | none => (s, some "to_direction: invalid dir")
          | some dir =>
            match tgt with
            | Target.Window => eff.focus_window dir s
            | Target.Desktop =>
              if dir ≠ Direction.Left ∧ dir ≠ Direction.Right then
                (s, some "Desktops can only be focused left or right")
              else eff.switch_desktop dir s
      | _ => (s, some "Invalid focus. Syntax: focus <window|desktop> <top|bottom|left|right>")
    | some Action.Swap =>
      match rest with
      | [p1, p2] =>
        match to_target p1 with
        | none => (s, some ("Invalid target: " ++ String.mk p1))
        | some tgt =>
          match to_direction p2 with
          | none => (s, some "to_direction: invalid dir")
          | some dir =>
            match tgt with
            | Target.Window => eff.swap_window dir s
            | Target.Desktop => (s, some "Cannot swap desktops")
      | _ => (s, some "Invalid swap. Syntax: swap <window|desktop> <top|bottom|left|right>")
    | some Action.MoveToDesktop =>
      match rest with
      | [p1, p2] =>
        match to_target p1 with
        | none => (s, some ("Invalid target: " ++ String.mk p1))
        | some tgt =>
          match to_direction p2 with
          | none => (s, some "to_direction: invalid dir")
          | some dir =>
            match tgt with
            | Target.Window => eff.move_window dir s
            | Target.Desktop => (s, some "Cannot move desktops")
      | _ =>
        (s, some "Invalid move_to_desktop. Syntax: move_to_desktop <window|desktop> <left|right>")
    | some Action.Close =>
      match rest with
      | [p1] =>
        match to_target p1 with
        | none => (s, some ("Invalid target: " ++ String.mk p1))
        | some Target.Window => eff.close_focused s
        | some Target.Desktop => (s, some "Cannot close desktops")
      | _ => (s, some "Invalid close. Syntax: close window")
    | some Action.Terminate =>
      match rest with
      | [p1] =>
        match to_target p1 with
        | none => (s, some ("Invalid target: " ++ String.mk p1))
        | some Target.Window => eff.terminate_focused s
        | some Target.Desktop => (s, some "Cannot terminate desktops")
      | _ => (s, some "Invalid terminate. Syntax: terminate window")
    | some Action.Reload => eff.reload_config s

end Twm

namespace Twm

/-! ### Theorems for the claims -/

/-- C1 counterexample: at axis 0 with source rect `[0,0]×[2,2]` and other rect
`[10,10]×[12,12]`, the code returns `19` while the spec's formula with the
claimed default weight `k = 10` gives `100`. -/
theorem claim_C1_counterexample :
    Rect.distance_with_axis_preference ⟨⟨0, 0⟩, ⟨2, 2⟩⟩ 0 ⟨⟨10, 10⟩, ⟨12, 12⟩⟩ ≠
      spec_distance_weighted 10 ⟨⟨0, 0⟩, ⟨2, 2⟩⟩ 0 ⟨⟨10, 10⟩, ⟨12, 12⟩⟩ := by
  norm_num [Rect.distance_with_axis_preference, spec_distance_weighted, Rect.center, Rect.size,
    Vec2.get, Vec2.add, Vec2.sub, Vec2.divs, abs]

/-- C1 (amended): for every axis in `{0, 1}` and all rectangles,
`distance_with_axis_preference` returns
`|center[axis] − other.center[axis]| + k·max(0, |center[off] − other.center[off]| − size[off]/2)`
with `off = (axis+1) mod 2` and the off-axis penalty weight `k = 1`,
hardcoded (the code applies no multiplier to the penalty term). -/
theorem claim_C1_distance_formula (axis : Nat) (h : axis < 2) (r other : Rect) :
    r.distance_with_axis_preference axis other = spec_distance_weighted 1 r axis other := by
  interval_cases axis <;>
    simp [Rect.distance_with_axis_preference, spec_distance_weighted, one_mul]

/-- Witness for C1: the amended formula evaluated at axis 0 on concrete rects. -/
theorem claim_C1_distance_formula_witness :
    Rect.distance_with_axis_preference ⟨⟨0, 0⟩, ⟨2, 2⟩⟩ 0 ⟨⟨10, 10⟩, ⟨12, 12⟩⟩ =
      spec_distance_weighted 1 ⟨⟨0, 0⟩, ⟨2, 2⟩⟩ 0 ⟨⟨10, 10⟩, ⟨12, 12⟩⟩ :=
  claim_C1_distance_formula 0 (by decide) ⟨⟨0, 0⟩, ⟨2, 2⟩⟩ ⟨⟨10, 10⟩, ⟨12, 12⟩⟩

theorem axis_of_Left : axis_of Direction.Left = 0 := rfl

theorem axis_of_Right : axis_of Direction.Right = 0 := rfl

theorem axis_of_Up : axis_of Direction.Up = 1 := rfl

theorem axis_of_Down : axis_of Direction.Down = 1 := rfl

theorem correct_side_pos (dir : Direction) (a b : ℚ)
    (hdir : dir = Direction.Up ∨ dir = Direction.Left) :
    is_on_correct_side dir a b ↔ b < a - 2 := by
  unfold is_on_correct_side
  constructor
  · rintro ⟨habs, hiff⟩
    have hpos : a - b > 0 := hiff.mpr hdir
    rcases lt_abs.mp habs with h2 | h2 <;> linarith
  · intro hlt
    exact ⟨lt_abs.mpr (Or.inl (by linarith)), ⟨fun _ => hdir, fun _ => by linarith⟩⟩

theorem correct_side_neg (dir : Direction) (a b : ℚ)
    (hdir : ¬(dir = Direction.Up ∨ dir = Direction.Left)) :
    is_on_correct_side dir a b ↔ a < b - 2 := by
  unfold is_on_correct_side
  constructor
  · rintro ⟨habs, hiff⟩
    have hnpos : ¬(a - b > 0) := fun hp => hdir (hiff.mp hp)
    rcases lt_abs.mp habs with h2 | h2
    · exact absurd h2 (by simp at hnpos ⊢; linarith)
    · linarith
  · intro hlt
    exact ⟨lt_abs.mpr (Or.inr (by linarith)), ⟨fun hp => absurd hp (by linarith), fun hd => absurd hd hdir⟩⟩

theorem eligible_Left (s c : Window) :
    eligible_candidate s c Direction.Left ↔
      (s.handle ≠ c.handle ∧ c.rect.center.x < s.rect.center.x - 2) := by
  unfold eligible_candidate
  rw [axis_of_Left, correct_side_pos Direction.Left _ _ (Or.inr rfl)]
  simp [Vec2.get]

theorem eligible_Right (s c : Window) :
    eligible_candidate s c Direction.Right ↔
      (s.handle ≠ c.handle ∧ s.rect.center.x < c.rect.center.x - 2) := by
  unfold eligible_candidate
  rw [axis_of_Right, correct_side_neg Direction.Right _ _ (by simp)]
  simp [Vec2.get]

theorem eligible_Up (s c : Window) :
    eligible_candidate s c Direction.Up ↔
      (s.handle ≠ c.handle ∧ c.rect.center.y < s.rect.center.y - 2) := by
  unfold eligible_candidate
  rw [axis_of_Up, correct_side_pos Direction.Up _ _ (Or.inl rfl)]
  simp [Vec2.get]

theorem eligible_Down (s c : Window) :
    eligible_candidate s c Direction.Down ↔
      (s.handle ≠ c.handle ∧ s.rect.center.y < c.rect.center.y - 2) := by
  unfold eligible_candidate
  rw [axis_of_Down, correct_side_neg Direction.Down _ _ (by simp)]
  simp [Vec2.get]

/-- C3: with tolerance 2, a candidate distinct from the source is eligible for
`Left` exactly when its center x-coordinate is below the source's by more than
the tolerance, and such a candidate is excluded for `Right`; `Up` requires the
center y-coordinate below the source's and `Down` above, each beyond the
tolerance band. -/
theorem claim_C3_side_filter (s c : Window) (h : s.handle ≠ c.handle) :
    (eligible_candidate s c Direction.Left ↔ c.rect.center.x < s.rect.center.x - 2) ∧
    (c.rect.center.x < s.rect.center.x - 2 → ¬ eligible_candidate s c Direction.Right) ∧
    (eligible_candidate s c Direction.Up ↔ c.rect.center.y < s.rect.center.y - 2) ∧
    (eligible_candidate s c Direction.Down ↔ c.rect.center.y > s.rect.center.y + 2) := by
  refine ⟨?_, ?_, ?_, ?_⟩
  · rw [eligible_Left]
    simp [h]
  · intro hlt hc
    rw [eligible_Right] at hc
    linarith [hc.2]
  · rw [eligible_Up]
    simp [h]
  · rw [eligible_Down]
    simp [h]
    constructor <;> intro <;> linarith

theorem adj_step_self (w : Window) (dir : Direction) (st : AdjSearch) (ow : Window)
    (h : w.handle = ow.handle) : adj_step w dir st ow = st := by
  simp only [adj_step]
  rw [if_neg]
  rintro ⟨⟨hne, _⟩, _⟩
  exact hne h

theorem adj_step_select (w ow : Window) (dir : Direction) (st : AdjSearch)
    (helig : eligible_candidate w ow dir)
    (hbetter : lt_best (w.rect.distance_with_axis_preference (axis_of dir) ow.rect) st.best_distance ∨
      (within_tolerance_of_best (w.rect.distance_with_axis_preference (axis_of dir) ow.rect)
          st.best_distance ∧
        ow.last_interacted_time > st.most_recently_interacted)) :
    adj_step w dir st ow =
      ⟨some ow, some (w.rect.distance_with_axis_preference (axis_of dir) ow.rect),
        ow.last_interacted_time⟩ := by
  simp only [adj_step]
  rw [if_pos ⟨helig, hbetter⟩]

theorem adj_step_not_better (w ow : Window) (dir : Direction) (st : AdjSearch)
    (h1 : ¬ lt_best (w.rect.distance_with_axis_preference (axis_of dir) ow.rect) st.best_distance)
    (h2 : ¬ (within_tolerance_of_best (w.rect.distance_with_axis_preference (axis_of dir) ow.rect)
          st.best_distance ∧
        ow.last_interacted_time > st.most_recently_interacted)) :
    adj_step w dir st ow = st := by
  simp only [adj_step]
  rw [if_neg]
  rintro ⟨_, h | h⟩
  · exact h1 h
  · exact h2 h

theorem get_adjacent_window_eq_of_find (windows : List Window) (handle : Nat) (dir : Direction)
    (w : Window) (h : windows.find? (fun x => x.handle == handle) = some w) :
    get_adjacent_window windows handle dir =
      (windows.foldl (adj_step w dir) ⟨none, none, 0⟩).best_candidate := by
  unfold get_adjacent_window
  rw [h]

/-- C2: in `get_adjacent_window`, among two eligible candidates whose distances
to the source are within the tolerance (2 units) of each other, the candidate
with the later `last_interacted_time` is selected, in whichever order the
desktop's window map is iterated. -/
theorem claim_C2_recency_tie_break (s a b : Window) (dir : Direction) (L : List Window)
    (horder : L = [s, a, b] ∨ L = [s, b, a] ∨ L = [a, s, b] ∨ L = [b, s, a] ∨
      L = [a, b, s] ∨ L = [b, a, s])
    (hsa : s.handle ≠ a.handle) (hsb : s.handle ≠ b.handle)
    (ha : eligible_candidate s a dir) (hb : eligible_candidate s b dir)
    (hclose : |s.rect.distance_with_axis_preference (axis_of dir) a.rect -
        s.rect.distance_with_axis_preference (axis_of dir) b.rect| < 2)
    (hrec : a.last_interacted_time > b.last_interacted_time) :
    get_adjacent_window L s.handle dir = some a := by
  set da := s.rect.distance_with_axis_preference (axis_of dir) a.rect with hda
  set db := s.rect.distance_with_axis_preference (axis_of dir) b.rect with hdb
  have habs := abs_lt.mp hclose
  have sel_a0 : adj_step s dir ⟨none, none, 0⟩ a = ⟨some a, some da, a.last_interacted_time⟩ :=
    adj_step_select s a dir _ ha (Or.inl True.intro)
  have sel_b0 : adj_step s dir ⟨none, none, 0⟩ b = ⟨some b, some db, b.last_interacted_time⟩ :=
    adj_step_select s b dir _ hb (Or.inl True.intro)
  have rep_ab : adj_step s dir ⟨some b, some db, b.last_interacted_time⟩ a =
      ⟨some a, some da, a.last_interacted_time⟩ :=
    adj_step_select s a dir _ ha (Or.inr ⟨hclose, hrec⟩)
  have keep_ba : adj_step s dir ⟨some a, some da, a.last_interacted_time⟩ b =
      ⟨some a, some da, a.last_interacted_time⟩ := by
    apply adj_step_not_better
    · intro hlt
      have : db < da - 2 := hlt
      linarith [habs.1, habs.2]
    · rintro ⟨_, htime⟩
      exact Nat.lt_asymm hrec htime
  have skips : ∀ st : AdjSearch, adj_step s dir st s = st := fun st => adj_step_self s dir st s rfl
  have hnota : (a.handle == s.handle) = false := by simp [Ne.symm hsa]
  have hnotb : (b.handle == s.handle) = false := by simp [Ne.symm hsb]
  rcases horder with rfl | rfl | rfl | rfl | rfl | rfl
  · have hfind : List.find? (fun x => x.handle == s.handle) [s, a, b] = some s := by
      simp [List.find?_cons_of_pos]
    rw [get_adjacent_window_eq_of_find _ _ _ s hfind]
    simp only [List.foldl_cons, List.foldl_nil, skips, sel_a0, keep_ba]
  · have hfind : List.find? (fun x => x.handle == s.handle) [s, b, a] = some s := by
      simp [List.find?_cons_of_pos]
    rw [get_adjacent_window_eq_of_find _ _ _ s hfind]
    simp only [List.foldl_cons, List.foldl_nil, skips, sel_b0, rep_ab]
  · have hfind : List.find? (fun x => x.handle == s.handle) [a, s, b] = some s := by
      simp [List.find?_cons_of_pos, List.find?_cons_of_neg, hnota]
    rw [get_adjacent_window_eq_of_find _ _ _ s hfind]
    simp only [List.foldl_cons, List.foldl_nil, skips, sel_a0, keep_ba]
  · have hfind : List.find? (fun x => x.handle == s.handle) [b, s, a] = some s := by
      simp [List.find?_cons_of_pos, List.find?_cons_of_neg, hnotb]
    rw [get_adjacent_window_eq_of_find _ _ _ s hfind]
    simp only [List.foldl_cons, List.foldl_nil, skips, sel_b0, rep_ab]
  · have hfind : List.find? (fun x => x.handle == s.handle) [a, b, s] = some s := by
      simp [List.find?_cons_of_pos, List.find?_cons_of_neg, hnota, hnotb]
    rw [get_adjacent_window_eq_of_find _ _ _ s hfind]
    simp only [List.foldl_cons, List.foldl_nil, skips, sel_a0, keep_ba]
  · have hfind : List.find? (fun x => x.handle == s.handle) [b, a, s] = some s := by
      simp [List.find?_cons_of_pos, List.find?_cons_of_neg, hnota, hnotb]
    rw [get_adjacent_window_eq_of_find _ _ _ s hfind]
    simp only [List.foldl_cons, List.foldl_nil, skips, sel_b0, rep_ab]

/-- Witness for C2: source centered at `(100, 0)`, candidates centered at
`(50, 0)` (interaction time 5) and `(51, 0)` (time 0); distances 50 and 49 are
within tolerance of each other and the more recently used candidate wins. -/
theorem claim_C2_recency_tie_break_witness :
    get_adjacent_window [w2s, w2a, w2b] w2s.handle Direction.Left = some w2a :=
  claim_C2_recency_tie_break w2s w2a w2b Direction.Left [w2s, w2a, w2b] (Or.inl rfl)
    (by decide) (by decide)
    (by
      rw [eligible_Left]
      norm_num [w2s, w2a, Rect.center, Vec2.add, Vec2.divs, Vec2.get])
    (by
      rw [eligible_Left]
      norm_num [w2s, w2b, Rect.center, Vec2.add, Vec2.divs, Vec2.get])
    (by
      norm_num [w2s, w2a, w2b, Rect.distance_with_axis_preference, Rect.center, Rect.size,
        Vec2.add, Vec2.sub, Vec2.divs, Vec2.get, axis_of, abs])
    (by decide)

/-- Witness for C3 at concrete windows: source centered at `(10, 10)`,
candidate centered at `(1, 1)`. -/
theorem claim_C3_side_filter_witness :
    (eligible_candidate w3s w3c Direction.Left ↔ w3c.rect.center.x < w3s.rect.center.x - 2) ∧
    (w3c.rect.center.x < w3s.rect.center.x - 2 → ¬ eligible_candidate w3s w3c Direction.Right) ∧
    (eligible_candidate w3s w3c Direction.Up ↔ w3c.rect.center.y < w3s.rect.center.y - 2) ∧
    (eligible_candidate w3s w3c Direction.Down ↔ w3c.rect.center.y > w3s.rect.center.y + 2) :=
  claim_C3_side_filter w3s w3c (by decide)

theorem try_manage_snd (d : Desktop) (pw : PlatformWindow) (b : Bool) (now : Nat) :
    (d.try_manage pw b now).2 = can_be_managed pw := by
  unfold Desktop.try_manage
  cases hcm : can_be_managed pw <;> simp [hcm]

theorem try_manage_windows (d : Desktop) (pw : PlatformWindow) (b : Bool) (now : Nat)
    (hm : can_be_managed pw = true) :
    (d.try_manage pw b now).1.windows =
      if b then touch_window (upsert_window d.windows pw) pw.handle now
      else upsert_window d.windows pw := by
  unfold Desktop.try_manage
  rw [hm]
  cases b <;> simp

theorem try_manage_unmanaged (d : Desktop) (pw : PlatformWindow) (b : Bool) (now : Nat)
    (hm : can_be_managed pw = false) : d.try_manage pw b now = (d, false) := by
  unfold Desktop.try_manage
  rw [hm]
  simp

theorem upsert_mem_out (ws : List Window) (pw : PlatformWindow) (w : Window)
    (hw : w ∈ upsert_window ws pw) :
    (w ∈ ws ∧ w.handle ≠ pw.handle) ∨
      (w.handle = pw.handle ∧ w.rect = pw.rect ∧ w.marked_for_deletion = false) := by
  unfold upsert_window at hw
  split at hw
  · rcases List.mem_map.mp hw with ⟨ow, how, rfl⟩
    by_cases hob : (ow.handle == pw.handle) = true
    · right
      simp [hob, eq_of_beq hob]
    · left
      simp only [hob, if_false]
      exact ⟨how, by simpa using hob⟩
  · rename_i hany
    rcases List.mem_append.mp hw with hmem | hmem
    · left
      refine ⟨hmem, ?_⟩
      simp only [List.any_eq_true, not_exists, not_and] at hany
      simpa using hany w hmem
    · rcases List.mem_singleton.mp hmem with rfl
      right
      exact ⟨rfl, rfl, rfl⟩

theorem upsert_mem_fresh (ws : List Window) (pw : PlatformWindow) :
    ∃ w ∈ upsert_window ws pw,
      w.handle = pw.handle ∧ w.rect = pw.rect ∧ w.marked_for_deletion = false := by
  unfold upsert_window
  split
  · rename_i hany
    rcases List.any_eq_true.mp hany with ⟨ow, how, hob⟩
    refine ⟨_, List.mem_map_of_mem _ how, ?_⟩
    simp [hob, eq_of_beq hob]
  · exact ⟨_, List.mem_append_right _ (List.mem_singleton.mpr rfl), rfl, rfl, rfl⟩

theorem upsert_mem_preserved (ws : List Window) (pw : PlatformWindow) (w : Window)
    (hw : w ∈ ws) (hne : w.handle ≠ pw.handle) : w ∈ upsert_window ws pw := by
  unfold upsert_window
  split
  · have : (if w.handle == pw.handle then
        { w with name := pw.name, rect := pw.rect, marked_for_deletion := false } else w) = w := by
      simp [hne]
    exact this ▸ List.mem_map_of_mem _ hw
  · exact List.mem_append_left _ hw

theorem touch_mem_out (ws : List Window) (hh now : Nat) (w : Window)
    (hw : w ∈ touch_window ws hh now) :
    ∃ w0 ∈ ws, w.handle = w0.handle ∧ w.rect = w0.rect ∧
      w.marked_for_deletion = w0.marked_for_deletion ∧ (w0.handle ≠ hh → w = w0) := by
  unfold touch_window at hw
  rcases List.mem_map.mp hw with ⟨w0, hw0, rfl⟩
  refine ⟨w0, hw0, ?_⟩
  by_cases hb : (w0.handle == hh) = true
  · exact ⟨by simp [hb], by simp [hb], by simp [hb], fun hne => absurd (eq_of_beq hb) hne⟩
  · exact ⟨by simp [hb], by simp [hb], by simp [hb], fun _ => by simp [hb]⟩

theorem touch_image (ws : List Window) (hh now : Nat) (w0 : Window) (h : w0 ∈ ws) :
    ∃ w ∈ touch_window ws hh now, w.handle = w0.handle ∧ w.rect = w0.rect ∧
      w.marked_for_deletion = w0.marked_for_deletion := by
  refine ⟨_, List.mem_map_of_mem _ h, ?_⟩
  by_cases hb : (w0.handle == hh) = true <;> simp [hb]

theorem try_manage_mem_out (d : Desktop) (pw : PlatformWindow) (b : Bool) (now : Nat)
    (hm : can_be_managed pw = true) (w : Window)
    (hw : w ∈ (d.try_manage pw b now).1.windows) :
    (w ∈ d.windows ∧ w.handle ≠ pw.handle) ∨
      (w.handle = pw.handle ∧ w.rect = pw.rect ∧ w.marked_for_deletion = false) := by
  rw [try_manage_windows d pw b now hm] at hw
  cases b with
  | false =>
    simp only [if_false, Bool.false_eq_true] at hw
    exact upsert_mem_out d.windows pw w hw
  | true =>
    simp only [if_true] at hw
    rcases touch_mem_out _ _ _ _ hw with ⟨w0, hw0, h1, h2, h3, h4⟩
    rcases upsert_mem_out d.windows pw w0 hw0 with ⟨hmem, hne⟩ | ⟨q1, q2, q3⟩
    · rw [h4 hne]
      exact Or.inl ⟨hmem, hne⟩
    · exact Or.inr ⟨h1.trans q1, h2.trans q2, h3.trans q3⟩

theorem try_manage_mem_fresh (d : Desktop) (pw : PlatformWindow) (b : Bool) (now : Nat)
    (hm : can_be_managed pw = true) :
    ∃ w ∈ (d.try_manage pw b now).1.windows,
      w.handle = pw.handle ∧ w.rect = pw.rect ∧ w.marked_for_deletion = false := by
  rw [try_manage_windows d pw b now hm]
  cases b with
  | false =>
    simp only [if_false, Bool.false_eq_true]
    exact upsert_mem_fresh d.windows pw
  | true =>
    simp only [if_true]
    rcases upsert_mem_fresh d.windows pw with ⟨w0, hw0, q1, q2, q3⟩
    rcases touch_image _ pw.handle now w0 hw0 with ⟨w, hw, h1, h2, h3⟩
    exact ⟨w, hw, h1.trans q1, h2.trans q2, h3.trans q3⟩

theorem try_manage_mem_preserved (d : Desktop) (pw : PlatformWindow) (b : Bool) (now : Nat)
    (w : Window) (hw : w ∈ d.windows) (hne : w.handle ≠ pw.handle) :
    w ∈ (d.try_manage pw b now).1.windows := by
  cases hm : can_be_managed pw with
  | false =>
    rw [try_manage_unmanaged d pw b now hm]
    exact hw
  | true =>
    rw [try_manage_windows d pw b now hm]
    have hup := upsert_mem_preserved d.windows pw w hw hne
    cases b with
    | false => simpa using hup
    | true =>
      simp only [if_true]
      unfold touch_window
      have : (if w.handle == pw.handle then { w with last_interacted_time := now } else w) = w := by
        simp [hne]
      exact this ▸ List.mem_map_of_mem _ hup

theorem soundInv_mono (P Q : List PlatformWindow) (ds : List (Nat × Desktop))
    (hsub : ∀ pw ∈ P, pw ∈ Q) (h : SoundInv P ds) : SoundInv Q ds := by
  intro gd hgd w hw
  rcases h gd hgd w hw with hm | ⟨pw, hpw, hrest⟩
  · exact Or.inl hm
  · exact Or.inr ⟨pw, hsub pw hpw, hrest⟩

theorem soundInv_ensure (P : List PlatformWindow) (ds : List (Nat × Desktop)) (gid : Nat)
    (h : SoundInv P ds) : SoundInv P (ensure_desktop ds gid) := by
  unfold ensure_desktop
  split
  · exact h
  · intro gd hgd w hw
    rcases List.mem_append.mp hgd with hgd | hgd
    · exact h gd hgd w hw
    · rcases List.mem_singleton.mp hgd with rfl
      simp at hw

theorem ensure_find_some (ds : List (Nat × Desktop)) (gid : Nat) :
    ∃ e, (ensure_desktop ds gid).find? (fun x => x.1 == gid) = some e := by
  have hmem : ∃ x ∈ ensure_desktop ds gid, (x.1 == gid) = true := by
    unfold ensure_desktop
    split
    · rename_i hany
      exact List.any_eq_true.mp hany
    · exact ⟨(gid, ⟨[], none⟩), List.mem_append_right _ (List.mem_singleton.mpr rfl), by simp⟩
  rcases hmem with ⟨x, hx, hpx⟩
  exact Option.isSome_iff_exists.mp (List.find?_isSome.mpr ⟨x, hx, hpx⟩)

theorem mem_store_out (ds : List (Nat × Desktop)) (gid : Nat) (dnew : Desktop)
    (gd' : Nat × Desktop) (h : gd' ∈ store_desktop ds gid dnew) :
    gd' ∈ ds ∨ (gd'.1 = gid ∧ gd'.2 = dnew) := by
  unfold store_desktop at h
  rcases List.mem_map.mp h with ⟨gd, hgd, rfl⟩
  by_cases hb : (gd.1 == gid) = true
  · right
    simp [hb, eq_of_beq hb]
  · left
    simpa [hb] using hgd

theorem soundInv_store (P : List PlatformWindow) (ds : List (Nat × Desktop)) (gid : Nat)
    (dnew : Desktop) (h : SoundInv P ds)
    (hd : ∀ w ∈ dnew.windows,
      w.marked_for_deletion = true ∨
        ∃ pw ∈ P, pw.handle = w.handle ∧ pw.desktop_id = some gid ∧
          can_be_managed pw = true ∧ pw.rect = w.rect) :
    SoundInv P (store_desktop ds gid dnew) := by
  intro gd' hgd' w hw
  rcases mem_store_out ds gid dnew gd' hgd' with hgd | ⟨hkey, hval⟩
  · exact h gd' hgd w hw
  · rw [hval] at hw
    rcases hd w hw with hm | ⟨pw, hpw, h1, h2, h3, h4⟩
    · exact Or.inl hm
    · exact Or.inr ⟨pw, hpw, h1, by rw [hkey]; exact h2, h3, h4⟩

theorem lookup_of_find (ds : List (Nat × Desktop)) (gid : Nat) (e : Nat × Desktop)
    (he : ds.find? (fun x => x.1 == gid) = some e) : lookup_desktop ds gid = e.2 := by
  unfold lookup_desktop
  rw [he]
  rfl

theorem enum_step_none (f : Option Nat) (now : Nat) (reg : Registry) (pw : PlatformWindow)
    (hdid : pw.desktop_id = none) : enum_step f now reg pw = reg := by
  unfold enum_step
  rw [hdid]

theorem enum_step_some (f : Option Nat) (now : Nat) (reg : Registry) (pw : PlatformWindow)
    (gid : Nat) (hdid : pw.desktop_id = some gid) :
    enum_step f now reg pw =
      if ((lookup_desktop (ensure_desktop reg.desktops gid) gid).try_manage pw
          (f == some pw.handle) now).2 then
        ⟨store_desktop (ensure_desktop reg.desktops gid) gid
            ((lookup_desktop (ensure_desktop reg.desktops gid) gid).try_manage pw
              (f == some pw.handle) now).1,
          if reg.current_id = none ∧ pw.on_current_desktop then some gid else reg.current_id⟩
      else ⟨ensure_desktop reg.desktops gid, reg.current_id⟩ := by
  unfold enum_step
  rw [hdid]

theorem soundInv_enum_step (f : Option Nat) (now : Nat) (P : List PlatformWindow)
    (reg : Registry) (pw : PlatformWindow) (h : SoundInv P reg.desktops) :
    SoundInv (P ++ [pw]) (enum_step f now reg pw).desktops := by
  have hsub : ∀ q ∈ P, q ∈ P ++ [pw] := fun q hq => List.mem_append_left _ hq
  rcases hdid : pw.desktop_id with _ | gid
  · rw [enum_step_none f now reg pw hdid]
    exact soundInv_mono P _ _ hsub h
  · have hens := soundInv_ensure P reg.desktops gid h
    rw [enum_step_some f now reg pw gid hdid]
    by_cases hmd : ((lookup_desktop (ensure_desktop reg.desktops gid) gid).try_manage pw
        (f == some pw.handle) now).2 = true
    · rw [if_pos hmd]
      rw [try_manage_snd] at hmd
      rcases ensure_find_some reg.desktops gid with ⟨e, he⟩
      have hemem := List.mem_of_find?_eq_some he
      have hekeyb := List.find?_some he
      have hekey : e.1 = gid := eq_of_beq hekeyb
      have hlook := lookup_of_find _ gid e he
      refine soundInv_store _ _ _ _ (soundInv_mono P _ _ hsub hens) ?_
      intro w hw
      rw [hlook] at hw
      rcases try_manage_mem_out e.2 pw _ now hmd w hw with ⟨hwd, hne⟩ | ⟨h1, h2, h3⟩
      · rcases hens e hemem w hwd with hmk | ⟨q, hq, q1, q2, q3, q4⟩
        · exact Or.inl hmk
        · rw [hekey] at q2
          exact Or.inr ⟨q, hsub q hq, q1, q2, q3, q4⟩
      · exact Or.inr ⟨pw, List.mem_append_right _ (List.mem_singleton.mpr rfl),
          h1.symm, hdid, hmd, h2.symm⟩
    · rw [if_neg hmd]
      exact soundInv_mono P _ _ hsub hens

theorem soundInv_foldl (f : Option Nat) (now : Nat) (enum : List PlatformWindow)
    (P : List PlatformWindow) (reg : Registry) (h : SoundInv P reg.desktops) :
    SoundInv (P ++ enum) ((enum.foldl (enum_step f now) reg).desktops) := by
  induction enum generalizing P reg with
  | nil => simpa using h
  | cons pw rest ih =>
    have hstep := soundInv_enum_step f now P reg pw h
    have hres := ih (P ++ [pw]) (enum_step f now reg pw) hstep
    rw [List.foldl_cons]
    have heq : (P ++ [pw]) ++ rest = P ++ pw :: rest := by simp
    rw [← heq]
    exact hres

theorem soundInv_marked (reg : Registry) :
    SoundInv [] (reg.desktops.map (fun gd => (gd.1, gd.2.pre_update))) := by
  intro gd hgd w hw
  rcases List.mem_map.mp hgd with ⟨gd0, hgd0, rfl⟩
  left
  have hw' : w ∈ gd0.2.windows.map (fun x => { x with marked_for_deletion := true }) := hw
  rcases List.mem_map.mp hw' with ⟨w0, hw0, rfl⟩
  rfl

theorem update_all_sound (reg : Registry) (enum : List PlatformWindow) (f : Option Nat)
    (now : Nat) (g h : Nat) (r : Rect)
    (hwin : (update_all reg enum f now).hasWinRect g h r) :
    ∃ pw ∈ enum, pw.handle = h ∧ pw.desktop_id = some g ∧ can_be_managed pw = true ∧
      pw.rect = r := by
  rcases hwin with ⟨d, hd, w, hw, hhandle, hrect⟩
  have hd' : (g, d) ∈ (((enum.foldl (enum_step f now)
      ⟨reg.desktops.map (fun gd => (gd.1, gd.2.pre_update)), none⟩).desktops.map
        (fun gd => (gd.1, gd.2.post_update))).filter (fun gd => !gd.2.windows.isEmpty)) := hd
  have hsw := List.mem_filter.mp hd'
  rcases List.mem_map.mp hsw.1 with ⟨gd0, hgd0, heq⟩
  have hkey : gd0.1 = g := congrArg Prod.fst heq
  have hdval : gd0.2.post_update = d := congrArg Prod.snd heq
  rw [← hdval] at hw
  have hwfil : w ∈ gd0.2.windows.filter (fun x => !x.marked_for_deletion) := hw
  have hw0 := List.mem_filter.mp hwfil
  have hsound := soundInv_foldl f now enum []
    ⟨reg.desktops.map (fun gd => (gd.1, gd.2.pre_update)), none⟩ (soundInv_marked reg)
    gd0 hgd0 w hw0.1
  rcases hsound with hm | ⟨pw, hpw, p1, p2, p3, p4⟩
  · rw [hm] at hw0
    simp at hw0
  · refine ⟨pw, by simpa using hpw, ?_, ?_, p3, ?_⟩
    · rw [p1, hhandle]
    · rw [p2, hkey]
    · rw [p4, hrect]

theorem post_update_last_focus (d : Desktop) :
    d.post_update.last_focus = none ∨
      ∃ w ∈ d.post_update.windows, some w.handle = d.post_update.last_focus := by
  unfold Desktop.post_update
  by_cases hany : (d.windows.filter (fun w => !w.marked_for_deletion)).any
      (fun w => some w.handle == d.last_focus) = true
  · right
    rcases List.any_eq_true.mp hany with ⟨w, hw, hbeq⟩
    exact ⟨w, hw, by rw [if_pos hany]; exact eq_of_beq hbeq⟩
  · left
    simp only [if_neg hany]

theorem update_all_desk_invariant (reg : Registry) (enum : List PlatformWindow)
    (f : Option Nat) (now : Nat) (gd : Nat × Desktop)
    (h : gd ∈ (update_all reg enum f now).desktops) :
    gd.2.windows ≠ [] ∧
      (gd.2.last_focus = none ∨ ∃ w ∈ gd.2.windows, some w.handle = gd.2.last_focus) := by
  have h' : gd ∈ (((enum.foldl (enum_step f now)
      ⟨reg.desktops.map (fun x => (x.1, x.2.pre_update)), none⟩).desktops.map
        (fun x => (x.1, x.2.post_update))).filter (fun x => !x.2.windows.isEmpty)) := h
  have hsw := List.mem_filter.mp h'
  constructor
  · intro hnin
    rw [hnin] at hsw
    simpa using hsw.2
  · rcases List.mem_map.mp hsw.1 with ⟨gd0, hgd0, heq⟩
    have hdval : gd0.2.post_update = gd.2 := congrArg Prod.snd heq
    rw [← hdval]
    exact post_update_last_focus gd0.2

/-- C10: after every `update_all` call every tracked desktop has a non-empty
window map, and its `last_focus` is null or a key of that map. -/
theorem claim_C10_registry_invariant (reg : Registry) (enum : List PlatformWindow)
    (f : Option Nat) (now : Nat) (gd : Nat × Desktop)
    (h : gd ∈ (update_all reg enum f now).desktops) :
    gd.2.windows ≠ [] ∧
      (gd.2.last_focus = none ∨ ∃ w ∈ gd.2.windows, some w.handle = gd.2.last_focus) :=
  update_all_desk_invariant reg enum f now gd h

/-- Witness for C10: refreshing an empty registry with one manageable window
yields one desktop, for which the invariant is checked. -/
theorem claim_C10_registry_invariant_witness :
    (1, dC10).2.windows ≠ [] ∧
      ((1, dC10).2.last_focus = none ∨
        ∃ w ∈ (1, dC10).2.windows, some w.handle = (1, dC10).2.last_focus) :=
  claim_C10_registry_invariant ⟨[], none⟩ [pwC5] none 0 (1, dC10) (List.Mem.head _)

/-- C4 counterexample: a registry tracking only window 5 on desktop 1, after a
single refresh pass whose enumeration omits handle 5, no longer tracks it —
the claim's "still tracked after a single refresh pass from which it is
absent" fails. -/
theorem claim_C4_counterexample :
    regC4.tracked 5 = true ∧ (update_all regC4 [] none 0).tracked 5 = false :=
  ⟨rfl, rfl⟩

/-- C4 (amended): a tracked window is removed by the first refresh pass whose
enumeration omits its handle, and likewise when every enumeration entry for
its handle is unmanageable (or carries no desktop GUID). -/
theorem claim_C4_removed_after_single_absence (reg : Registry) (enum : List PlatformWindow)
    (f : Option Nat) (now : Nat) (h : Nat)
    (htracked : reg.tracked h = true)
    (habsent : ∀ pw ∈ enum, pw.handle = h →
      pw.desktop_id = none ∨ can_be_managed pw = false) :
    (update_all reg enum f now).tracked h = false := by
  by_contra hcon
  rw [Bool.not_eq_false] at hcon
  unfold Registry.tracked at hcon
  rcases List.any_eq_true.mp hcon with ⟨gd, hgd, hin⟩
  rcases List.any_eq_true.mp hin with ⟨w, hw, hwh⟩
  have hwh2 := hwh
  have hwh' : w.handle = h := eq_of_beq hwh2
  have hwin : (update_all reg enum f now).hasWinRect gd.1 h w.rect :=
    ⟨gd.2, hgd, w, hw, hwh', rfl⟩
  rcases update_all_sound reg enum f now gd.1 h w.rect hwin with ⟨pw, hpw, p1, p2, p3, p4⟩
  rcases habsent pw hpw p1 with hnone | hunman
  · rw [p2] at hnone
    cases hnone
  · rw [p3] at hunman
    cases hunman

/-- Witness for C4 (amended): the one-window registry refreshed against an
empty enumeration no longer tracks handle 5. -/
theorem claim_C4_removed_after_single_absence_witness :
    (update_all regC4 [] none 0).tracked 5 = false :=
  claim_C4_removed_after_single_absence regC4 [] none 0 5 rfl
    (fun pw hpw => absurd hpw (List.not_mem_nil pw))

/-- C5 counterexample: desktop 1 tracks only window 5; the next enumeration
omits window 5 but lists a new manageable window 7 on desktop 1, so after the
refresh desktop 1 is still present — the claim's "D is absent from the
registry" fails for enumerations that repopulate D. -/
theorem claim_C5_counterexample :
    (∀ pw ∈ [pwC5], pw.handle ≠ wC4.handle) ∧
      (update_all regC4 [pwC5] none 0).hasDesk 1 :=
  ⟨by decide, ⟨dC10, List.Mem.head _⟩⟩

/-- C5 (amended): if the registry's desktop `g` tracks only window `W` and the
next enumeration omits `W` and assigns no window at all to `g`, then after that
single refresh `g` is absent from the registry. -/
theorem claim_C5_desktop_dropped (reg : Registry) (enum : List PlatformWindow)
    (f : Option Nat) (now : Nat) (g : Nat) (W : Window) (lf : Option Nat)
    (hD : (g, ⟨[W], lf⟩) ∈ reg.desktops)
    (homit : ∀ pw ∈ enum, pw.handle ≠ W.handle)
    (hnorepop : ∀ pw ∈ enum, pw.desktop_id ≠ some g) :
    ¬ (update_all reg enum f now).hasDesk g := by
  rintro ⟨d, hd⟩
  have hne := (update_all_desk_invariant reg enum f now (g, d) hd).1
  rcases List.exists_mem_of_ne_nil _ hne with ⟨w, hw⟩
  have hwin : (update_all reg enum f now).hasWinRect g w.handle w.rect :=
    ⟨d, hd, w, hw, rfl, rfl⟩
  rcases update_all_sound reg enum f now g w.handle w.rect hwin with ⟨pw, hpw, _, p2, _, _⟩
  exact hnorepop pw hpw p2

/-- Witness for C5 (amended): the one-window registry refreshed against an
empty enumeration drops desktop 1. -/
theorem claim_C5_desktop_dropped_witness :
    ¬ (update_all regC4 [] none 0).hasDesk 1 :=
  claim_C5_desktop_dropped regC4 [] none 0 1 wC4 none (List.Mem.head _)
    (fun pw hpw => absurd hpw (List.not_mem_nil pw))
    (fun pw hpw => absurd hpw (List.not_mem_nil pw))

theorem find?_cons_pos' (p : (Nat × Desktop) → Bool) (a : Nat × Desktop)
    (l : List (Nat × Desktop)) (h : p a = true) : (a :: l).find? p = some a :=
  List.find?_cons_of_pos l h

theorem find?_cons_neg' (p : (Nat × Desktop) → Bool) (a : Nat × Desktop)
    (l : List (Nat × Desktop)) (h : p a = false) : (a :: l).find? p = l.find? p :=
  List.find?_cons_of_neg l (by simp [h])

theorem find?_store (ds : List (Nat × Desktop)) (gid : Nat) (dnew : Desktop) :
    (store_desktop ds gid dnew).find? (fun x => x.1 == gid) =
      (ds.find? (fun x => x.1 == gid)).map (fun e => (e.1, dnew)) := by
  induction ds with
  | nil => rfl
  | cons a l ih =>
    unfold store_desktop at ih ⊢
    by_cases hb : (a.1 == gid) = true
    · simp only [List.map_cons, if_pos hb]
      rw [find?_cons_pos' _ _ _ hb, find?_cons_pos' _ _ _ hb]
      rfl
    · have hb' : (a.1 == gid) = false := by simpa using hb
      simp only [List.map_cons, if_neg hb]
      rw [find?_cons_neg' _ _ _ hb', find?_cons_neg' _ _ _ hb']
      exact ih

theorem find?_store_ne (ds : List (Nat × Desktop)) (gid g : Nat) (dnew : Desktop)
    (hne : gid ≠ g) :
    (store_desktop ds gid dnew).find? (fun x => x.1 == g) = ds.find? (fun x => x.1 == g) := by
  induction ds with
  | nil => rfl
  | cons a l ih =>
    unfold store_desktop at ih ⊢
    by_cases hb : (a.1 == gid) = true
    · have hag : (a.1 == g) = false := by
        have hkey : a.1 = gid := eq_of_beq hb
        simp [hkey, hne]
      simp only [List.map_cons, if_pos hb]
      rw [find?_cons_neg' _ _ _ hag, find?_cons_neg' _ _ _ hag]
      exact ih
    · simp only [List.map_cons, if_neg hb]
      by_cases hag : (a.1 == g) = true
      · rw [find?_cons_pos' _ _ _ hag, find?_cons_pos' _ _ _ hag]
      · have hag' : (a.1 == g) = false := by simpa using hag
        rw [find?_cons_neg' _ _ _ hag', find?_cons_neg' _ _ _ hag']
        exact ih

theorem find?_ensure_of_some (ds : List (Nat × Desktop)) (gid g : Nat) (e : Nat × Desktop)
    (h : ds.find? (fun x => x.1 == g) = some e) :
    (ensure_desktop ds gid).find? (fun x => x.1 == g) = some e := by
  unfold ensure_desktop
  split
  · exact h
  · rw [List.find?_append, h]
    rfl

theorem hasFresh_enum_step_establish (f : Option Nat) (now : Nat) (reg : Registry)
    (pw : PlatformWindow) (gid : Nat) (hdid : pw.desktop_id = some gid)
    (hm : can_be_managed pw = true) :
    HasFreshWin (enum_step f now reg pw).desktops gid pw.handle pw.rect := by
  rw [enum_step_some f now reg pw gid hdid]
  rcases ensure_find_some reg.desktops gid with ⟨e, he⟩
  have hlook := lookup_of_find _ gid e he
  have hmd : ((lookup_desktop (ensure_desktop reg.desktops gid) gid).try_manage pw
      (f == some pw.handle) now).2 = true := by
    rw [try_manage_snd]
    exact hm
  rw [if_pos hmd]
  refine ⟨(e.1, ((lookup_desktop (ensure_desktop reg.desktops gid) gid).try_manage pw
      (f == some pw.handle) now).1), ?_, ?_⟩
  · show (store_desktop (ensure_desktop reg.desktops gid) gid _).find? _ = _
    rw [find?_store, he]
    rfl
  · rw [hlook]
    exact try_manage_mem_fresh e.2 pw _ now hm

theorem hasFresh_enum_step_preserve (f : Option Nat) (now : Nat) (reg : Registry)
    (pw : PlatformWindow) (g h : Nat) (r : Rect)
    (hfr : HasFreshWin reg.desktops g h r) (hne : pw.handle ≠ h) :
    HasFreshWin (enum_step f now reg pw).desktops g h r := by
  rcases hfr with ⟨e, he, w, hw, q1, q2, q3⟩
  rcases hdid : pw.desktop_id with _ | gid
  · rw [enum_step_none f now reg pw hdid]
    exact ⟨e, he, w, hw, q1, q2, q3⟩
  · rw [enum_step_some f now reg pw gid hdid]
    by_cases hgg : gid = g
    · subst hgg
      have hp := List.find?_some he
      have hany : reg.desktops.any (fun x => x.1 == gid) = true :=
        List.any_eq_true.mpr ⟨e, List.mem_of_find?_eq_some he, hp⟩
      have hens : ensure_desktop reg.desktops gid = reg.desktops := by
        unfold ensure_desktop
        rw [if_pos hany]
      have hlook : lookup_desktop (ensure_desktop reg.desktops gid) gid = e.2 := by
        rw [hens]
        exact lookup_of_find _ gid e he
      by_cases hmd : ((lookup_desktop (ensure_desktop reg.desktops gid) gid).try_manage pw
          (f == some pw.handle) now).2 = true
      · rw [if_pos hmd]
        refine ⟨(e.1, ((lookup_desktop (ensure_desktop reg.desktops gid) gid).try_manage pw
            (f == some pw.handle) now).1), ?_, ?_⟩
        · show (store_desktop (ensure_desktop reg.desktops gid) gid _).find? _ = _
          rw [find?_store, hens, he]
          rfl
        · rw [hlook]
          refine ⟨w, try_manage_mem_preserved e.2 pw _ now w hw ?_, q1, q2, q3⟩
          rw [q1]
          exact Ne.symm hne
      · rw [if_neg hmd]
        refine ⟨e, ?_, w, hw, q1, q2, q3⟩
        show (ensure_desktop reg.desktops gid).find? _ = some e
        rw [hens]
        exact he
    · by_cases hmd : ((lookup_desktop (ensure_desktop reg.desktops gid) gid).try_manage pw
          (f == some pw.handle) now).2 = true
      · rw [if_pos hmd]
        refine ⟨e, ?_, w, hw, q1, q2, q3⟩
        show (store_desktop (ensure_desktop reg.desktops gid) gid _).find?
          (fun x => x.1 == g) = some e
        rw [find?_store_ne _ gid g _ hgg]
        exact find?_ensure_of_some _ gid g e he
      · rw [if_neg hmd]
        refine ⟨e, ?_, w, hw, q1, q2, q3⟩
        show (ensure_desktop reg.desktops gid).find? (fun x => x.1 == g) = some e
        exact find?_ensure_of_some _ gid g e he

theorem hasFresh_foldl (f : Option Nat) (now : Nat) (rest : List PlatformWindow)
    (reg : Registry) (g h : Nat) (r : Rect)
    (hall : ∀ pw ∈ rest, pw.handle ≠ h) (hfr : HasFreshWin reg.desktops g h r) :
    HasFreshWin ((rest.foldl (enum_step f now) reg).desktops) g h r := by
  induction rest generalizing reg with
  | nil => simpa using hfr
  | cons pw l ih =>
    rw [List.foldl_cons]
    exact ih (enum_step f now reg pw) (fun q hq => hall q (List.mem_cons_of_mem _ hq))
      (hasFresh_enum_step_preserve f now reg pw g h r hfr (hall pw (List.mem_cons_self _ _)))

theorem update_all_complete (reg : Registry) (enum : List PlatformWindow) (f : Option Nat)
    (now : Nat) (g : Nat) (pw : PlatformWindow)
    (hE : (enum.map (fun x => x.handle)).Nodup)
    (hpw : pw ∈ enum) (hdid : pw.desktop_id = some g) (hm : can_be_managed pw = true) :
    (update_all reg enum f now).hasWinRect g pw.handle pw.rect := by
  rcases List.append_of_mem hpw with ⟨E1, E2, rfl⟩
  have hall : ∀ q ∈ E2, q.handle ≠ pw.handle := by
    intro q hq
    have hnd := hE
    rw [List.map_append, List.map_cons] at hnd
    have h2 := (List.nodup_append.mp hnd).2.1
    have h3 := (List.nodup_cons.mp h2).1
    intro hcontra
    exact h3 (hcontra ▸ List.mem_map_of_mem _ hq)
  have hfold : (E1 ++ pw :: E2).foldl (enum_step f now)
      (⟨reg.desktops.map (fun x => (x.1, x.2.pre_update)), none⟩ : Registry) =
      E2.foldl (enum_step f now) (enum_step f now (E1.foldl (enum_step f now)
        ⟨reg.desktops.map (fun x => (x.1, x.2.pre_update)), none⟩) pw) := by
    rw [List.foldl_append, List.foldl_cons]
  have hest := hasFresh_enum_step_establish f now (E1.foldl (enum_step f now)
    ⟨reg.desktops.map (fun x => (x.1, x.2.pre_update)), none⟩) pw g hdid hm
  have hswept := hasFresh_foldl f now E2 _ g pw.handle pw.rect hall hest
  rw [← hfold] at hswept
  rcases hswept with ⟨e, he, w, hw, q1, q2, q3⟩
  have hemem := List.mem_of_find?_eq_some he
  have hekeyb := List.find?_some he
  have hekey : e.1 = g := eq_of_beq hekeyb
  have hwpost : w ∈ e.2.post_update.windows := by
    show w ∈ e.2.windows.filter (fun x => !x.marked_for_deletion)
    exact List.mem_filter.mpr ⟨hw, by simp [q3]⟩
  have hnonempty : e.2.post_update.windows ≠ [] := by
    intro hnil
    rw [hnil] at hwpost
    simp at hwpost
  refine ⟨e.2.post_update, ?_, w, hwpost, q1, q2⟩
  apply List.mem_filter.mpr
  constructor
  · have hmm : (e.1, e.2.post_update) ∈ ((E1 ++ pw :: E2).foldl (enum_step f now)
        ⟨reg.desktops.map (fun x => (x.1, x.2.pre_update)), none⟩).desktops.map
          (fun x => (x.1, x.2.post_update)) :=
      List.mem_map_of_mem _ hemem
    rw [hekey] at hmm
    exact hmm
  · simpa [List.isEmpty_iff] using hnonempty

theorem update_all_hasWinRect_iff (reg : Registry) (enum : List PlatformWindow)
    (f : Option Nat) (now : Nat) (g h : Nat) (r : Rect)
    (hE : (enum.map (fun x => x.handle)).Nodup) :
    (update_all reg enum f now).hasWinRect g h r ↔
      ∃ pw ∈ enum, pw.handle = h ∧ pw.desktop_id = some g ∧ can_be_managed pw = true ∧
        pw.rect = r := by
  constructor
  · exact update_all_sound reg enum f now g h r
  · rintro ⟨pw, hpw, rfl, hdid, hm, rfl⟩
    exact update_all_complete reg enum f now g pw hE hpw hdid hm

theorem update_all_hasDesk_iff (reg : Registry) (enum : List PlatformWindow)
    (f : Option Nat) (now : Nat) (g : Nat)
    (hE : (enum.map (fun x => x.handle)).Nodup) :
    (update_all reg enum f now).hasDesk g ↔
      ∃ pw ∈ enum, pw.desktop_id = some g ∧ can_be_managed pw = true := by
  constructor
  · rintro ⟨d, hd⟩
    have hne := (update_all_desk_invariant reg enum f now (g, d) hd).1
    rcases List.exists_mem_of_ne_nil _ hne with ⟨w, hw⟩
    rcases update_all_sound reg enum f now g w.handle w.rect ⟨d, hd, w, hw, rfl, rfl⟩ with
      ⟨pw, hpw, _, p2, p3, _⟩
    exact ⟨pw, hpw, p2, p3⟩
  · rintro ⟨pw, hpw, hdid, hm⟩
    rcases update_all_complete reg enum f now g pw hE hpw hdid hm with ⟨d, hd, _⟩
    exact ⟨d, hd⟩

/-- C6: refreshing twice in succession against the same platform enumeration
(with distinct handles, as `EnumWindows` yields) leaves the desktop GUID set
and the per-desktop window handle/rect associations of the first refresh
unchanged. -/
theorem claim_C6_refresh_idempotent (reg : Registry) (enum : List PlatformWindow)
    (f : Option Nat) (now now2 : Nat)
    (hE : (enum.map (fun x => x.handle)).Nodup) :
    (∀ g, (update_all (update_all reg enum f now) enum f now2).hasDesk g ↔
        (update_all reg enum f now).hasDesk g) ∧
      (∀ g h r, (update_all (update_all reg enum f now) enum f now2).hasWinRect g h r ↔
        (update_all reg enum f now).hasWinRect g h r) := by
  constructor
  · intro g
    rw [update_all_hasDesk_iff _ enum f now2 g hE, update_all_hasDesk_iff reg enum f now g hE]
  · intro g h r
    rw [update_all_hasWinRect_iff _ enum f now2 g h r hE,
      update_all_hasWinRect_iff reg enum f now g h r hE]

theorem foldl_adj_best_ne (w : Window) (dir : Direction) (l : List Window) (st : AdjSearch)
    (hst : ∀ C, st.best_candidate = some C → C.handle ≠ w.handle) :
    ∀ C, (l.foldl (adj_step w dir) st).best_candidate = some C → C.handle ≠ w.handle := by
  induction l generalizing st with
  | nil => exact hst
  | cons ow l ih =>
    rw [List.foldl_cons]
    apply ih
    intro C hC
    simp only [adj_step] at hC
    split at hC
    · rename_i hcond
      have hCow : ow = C := Option.some.inj hC
      subst hCow
      exact fun hh => hcond.1.1 hh.symm
    · exact hst C hC

theorem foldl_adj_best_mem (w : Window) (dir : Direction) (l : List Window) (st : AdjSearch) :
    ∀ C, (l.foldl (adj_step w dir) st).best_candidate = some C →
      st.best_candidate = some C ∨ C ∈ l := by
  induction l generalizing st with
  | nil =>
    intro C h
    exact Or.inl h
  | cons ow l ih =>
    intro C h
    rw [List.foldl_cons] at h
    rcases ih (adj_step w dir st ow) C h with hcase | hmem
    · simp only [adj_step] at hcase
      split at hcase
      · right
        rw [← Option.some.inj hcase]
        exact List.mem_cons_self _ _
      · left
        exact hcase
    · right
      exact List.mem_cons_of_mem _ hmem

theorem get_adjacent_ne (ws : List Window) (fh : Nat) (dir : Direction) (B : Window)
    (h : get_adjacent_window ws fh dir = some B) : B.handle ≠ fh := by
  unfold get_adjacent_window at h
  rcases hf : ws.find? (fun w => w.handle == fh) with _ | A
  · rw [hf] at h
    exact Option.noConfusion h
  · rw [hf] at h
    have hAkeyb := List.find?_some hf
    have hAfh : A.handle = fh := eq_of_beq hAkeyb
    have hne := foldl_adj_best_ne A dir ws ⟨none, none, 0⟩
      (fun C hC => Option.noConfusion hC) B h
    rw [← hAfh]
    exact hne

theorem get_adjacent_mem (ws : List Window) (fh : Nat) (dir : Direction) (B : Window)
    (h : get_adjacent_window ws fh dir = some B) : B ∈ ws := by
  unfold get_adjacent_window at h
  rcases hf : ws.find? (fun w => w.handle == fh) with _ | A
  · rw [hf] at h
    exact Option.noConfusion h
  · rw [hf] at h
    rcases foldl_adj_best_mem A dir ws ⟨none, none, 0⟩ B h with habs | hmem
    · exact Option.noConfusion habs
    · exact hmem

theorem find?_cons_posW (p : Window → Bool) (a : Window) (l : List Window) (h : p a = true) :
    (a :: l).find? p = some a :=
  List.find?_cons_of_pos l h

theorem find?_cons_negW (p : Window → Bool) (a : Window) (l : List Window) (h : p a = false) :
    (a :: l).find? p = l.find? p :=
  List.find?_cons_of_neg l (by simp [h])

theorem find?_handle_map (ws : List Window) (f : Window → Window)
    (hf : ∀ w, (f w).handle = w.handle) (X : Nat) :
    (ws.map f).find? (fun w => w.handle == X) = (ws.find? (fun w => w.handle == X)).map f := by
  induction ws with
  | nil => rfl
  | cons a l ih =>
    rw [List.map_cons]
    by_cases hb : (a.handle == X) = true
    · have hfb : ((f a).handle == X) = true := by
        rw [hf]
        exact hb
      rw [find?_cons_posW _ _ _ hfb, find?_cons_posW _ _ _ hb]
      rfl
    · have hb' : (a.handle == X) = false := by simpa using hb
      have hfb : ((f a).handle == X) = false := by
        rw [hf]
        exact hb'
      rw [find?_cons_negW _ _ _ hfb, find?_cons_negW _ _ _ hb']
      exact ih

theorem find?_of_mem_nodup (ws : List Window) (hnodup : (ws.map (fun w => w.handle)).Nodup)
    (B : Window) (hB : B ∈ ws) : ws.find? (fun w => w.handle == B.handle) = some B := by
  induction ws with
  | nil => cases hB
  | cons a l ih =>
    rw [List.map_cons] at hnodup
    have hnd := List.nodup_cons.mp hnodup
    rcases List.mem_cons.mp hB with rfl | hBl
    · exact find?_cons_posW _ _ _ (by simp)
    · have hne : (a.handle == B.handle) = false := by
        have hmem : B.handle ∈ l.map (fun w => w.handle) := List.mem_map_of_mem _ hBl
        have hanb : a.handle ≠ B.handle := fun he => hnd.1 (he ▸ hmem)
        simpa using hanb
      rw [find?_cons_negW _ _ _ hne]
      exact ih hnd.2 hBl

theorem swap_adjacent_eq (ws : List Window) (fh : Nat) (dir : Direction) (ok1 ok2 : Bool)
    (now : Nat) (A B : Window)
    (hfind : ws.find? (fun w => w.handle == fh) = some A)
    (hadj : get_adjacent_window ws fh dir = some B) :
    swap_adjacent ws fh dir ok1 ok2 now = (ws.map (swap_map_fn A B ok1 ok2 now), ok1 && ok2) := by
  unfold swap_adjacent
  rw [hfind, hadj]

theorem swap_map_fn_handle (A B : Window) (ok1 ok2 : Bool) (now : Nat) (w : Window) :
    (swap_map_fn A B ok1 ok2 now w).handle = w.handle := by
  unfold swap_map_fn
  by_cases h1 : (w.handle == A.handle) = true <;> by_cases h2 : (w.handle == B.handle) = true <;>
    cases ok1 <;> cases ok2 <;> simp [h1, h2]

theorem swap_map_fn_at_A (A B : Window) (ok1 ok2 : Bool) (now : Nat) :
    (swap_map_fn A B ok1 ok2 now A).rect = if ok1 then B.rect else A.rect := by
  unfold swap_map_fn
  cases ok1 <;> simp

theorem swap_map_fn_at_B (A B : Window) (ok1 ok2 : Bool) (now : Nat)
    (hBA : (B.handle == A.handle) = false) :
    (swap_map_fn A B ok1 ok2 now B).rect = if ok2 then A.rect else B.rect := by
  unfold swap_map_fn
  cases ok2 <;> simp [hBA]

/-- C7: when the focused window `A` has an adjacent window `B`, `swap_adjacent`
exchanges the two windows' cached bounds exactly when both platform bounds-set
calls succeed (and then reports success); when one call fails, the other
window's change still persists and the swap reports failure. -/
theorem claim_C7_swap_best_effort (ws : List Window) (fh : Nat) (dir : Direction)
    (ok1 ok2 : Bool) (now : Nat) (A B : Window)
    (hfind : ws.find? (fun w => w.handle == fh) = some A)
    (hadj : get_adjacent_window ws fh dir = some B)
    (hnodup : (ws.map (fun w => w.handle)).Nodup) :
    ((swap_adjacent ws fh dir ok1 ok2 now).1.find?
        (fun w => w.handle == A.handle)).map Window.rect =
      some (if ok1 then B.rect else A.rect) ∧
    ((swap_adjacent ws fh dir ok1 ok2 now).1.find?
        (fun w => w.handle == B.handle)).map Window.rect =
      some (if ok2 then A.rect else B.rect) ∧
    ((swap_adjacent ws fh dir ok1 ok2 now).2 = true ↔ ok1 = true ∧ ok2 = true) := by
  have hAfhb := List.find?_some hfind
  have hAfh : A.handle = fh := eq_of_beq hAfhb
  have hBne : B.handle ≠ fh := get_adjacent_ne ws fh dir B hadj
  have hBmem := get_adjacent_mem ws fh dir B hadj
  have hBA : (B.handle == A.handle) = false := by
    rw [hAfh]
    simp [hBne]
  rw [swap_adjacent_eq ws fh dir ok1 ok2 now A B hfind hadj]
  refine ⟨?_, ?_, ?_⟩
  · rw [find?_handle_map ws (swap_map_fn A B ok1 ok2 now)
      (swap_map_fn_handle A B ok1 ok2 now) A.handle, hAfh, hfind]
    show some ((swap_map_fn A B ok1 ok2 now A).rect) = some (if ok1 then B.rect else A.rect)
    rw [swap_map_fn_at_A]
  · rw [find?_handle_map ws (swap_map_fn A B ok1 ok2 now)
      (swap_map_fn_handle A B ok1 ok2 now) B.handle, find?_of_mem_nodup ws hnodup B hBmem]
    show some ((swap_map_fn A B ok1 ok2 now B).rect) = some (if ok2 then A.rect else B.rect)
    rw [swap_map_fn_at_B A B ok1 ok2 now hBA]
  · show (ok1 && ok2) = true ↔ ok1 = true ∧ ok2 = true
    exact iff_of_eq (Bool.and_eq_true ok1 ok2)

theorem w2_adjacency : get_adjacent_window [w2s, w2a] 1 Direction.Left = some w2a := by
  have hfind : List.find? (fun x => x.handle == (1 : Nat)) [w2s, w2a] = some w2s := rfl
  rw [get_adjacent_window_eq_of_find [w2s, w2a] 1 Direction.Left w2s hfind]
  have ha : eligible_candidate w2s w2a Direction.Left := by
    rw [eligible_Left]
    refine ⟨by decide, ?_⟩
    norm_num [w2s, w2a, Rect.center, Vec2.add, Vec2.divs]
  have e1 : adj_step w2s Direction.Left ⟨none, none, 0⟩ w2s = ⟨none, none, 0⟩ :=
    adj_step_self w2s Direction.Left ⟨none, none, 0⟩ w2s rfl
  have e2 : adj_step w2s Direction.Left ⟨none, none, 0⟩ w2a =
      ⟨some w2a, some (w2s.rect.distance_with_axis_preference (axis_of Direction.Left) w2a.rect),
        w2a.last_interacted_time⟩ :=
    adj_step_select w2s w2a Direction.Left ⟨none, none, 0⟩ ha (Or.inl True.intro)
  rw [List.foldl_cons, List.foldl_cons, List.foldl_nil, e1, e2]

/-- Witness for C7: a two-window desktop, focused window at handle 1, adjacent
window at handle 2; the first bounds-set succeeds and the second fails, so the
focused window's change persists and the swap reports failure. -/
theorem claim_C7_swap_best_effort_witness :
    ((swap_adjacent [w2s, w2a] 1 Direction.Left true false 9).1.find?
        (fun w => w.handle == w2s.handle)).map Window.rect =
      some (if true then w2a.rect else w2s.rect) ∧
    ((swap_adjacent [w2s, w2a] 1 Direction.Left true false 9).1.find?
        (fun w => w.handle == w2a.handle)).map Window.rect =
      some (if false then w2s.rect else w2a.rect) ∧
    ((swap_adjacent [w2s, w2a] 1 Direction.Left true false 9).2 = true ↔
      true = true ∧ false = true) :=
  claim_C7_swap_best_effort [w2s, w2a] 1 Direction.Left true false 9 w2s w2a rfl
    w2_adjacency (by decide)

/-- C8: dispatching the action text `swap desktop left` fails with the
unsupported-operation error `Cannot swap desktops` for every process state and
every behaviour of the state-changing operations (none of which is invoked),
and the state is returned unchanged. -/
theorem claim_C8_swap_desktop_unsupported (σ : Type) (eff : Effects σ) (s : σ) :
    invoke_action eff "swap desktop left" s = (s, some "Cannot swap desktops") := rfl

/-- C9: dispatching the four-token action text `focus window left left` fails
with the focus arity parse error for every process state and every behaviour
of the state-changing operations, and the state is returned unchanged. -/
theorem claim_C9_focus_wrong_arity (σ : Type) (eff : Effects σ) (s : σ) :
    invoke_action eff "focus window left left" s =
      (s, some "Invalid focus. Syntax: focus <window|desktop> <top|bottom|left|right>") := rfl

/-- Witness for C6: double refresh over the one-entry enumeration. -/
theorem claim_C6_refresh_idempotent_witness :
    (∀ g, (update_all (update_all ⟨[], none⟩ [pwC5] none 0) [pwC5] none 1).hasDesk g ↔
        (update_all ⟨[], none⟩ [pwC5] none 0).hasDesk g) ∧
      (∀ g h r, (update_all (update_all ⟨[], none⟩ [pwC5] none 0) [pwC5] none 1).hasWinRect g h r ↔
        (update_all ⟨[], none⟩ [pwC5] none 0).hasWinRect g h r) :=
  claim_C6_refresh_idempotent ⟨[], none⟩ [pwC5] none 0 1 (by decide)

end Twm
